import Mathlib

/-!
Verification development for the ECB key-interest-rates visualization
generator (`monetary_econ/generate_visualization.py`).

The script fetches six interest-rate time series, outer-joins them by date
into one table, averages the two MRO sub-series into a single MRO column,
renders an HTML summary plus a chart, and writes the artifact to disk.

Shallow embedding choices:
  * dates are `Nat` (the script normalizes upstream dates to calendar
    dates via `pd.to_datetime`; the calendar itself is irrelevant here);
  * observation values are `ℚ` (idealized floats);
  * a fetched series (`ecbdata.get_series` + `OBS_VALUE` extraction,
    everything inside the per-series `try`) is an oracle
    `String → String → Except String Series` taking key and start date;
  * a `pandas.DataFrame` of the fetched dict is a `RateTable`: the sorted,
    deduplicated union of all dates plus one value column per series,
    aligned with the date list (missing cells are `none`);
  * `DataFrame.mean(axis=1)` (default `skipna=True`) is `meanRow`: the
    mean of the available values of a row, `none` if all are missing;
  * the filesystem seen by `os.makedirs` / `open(..., 'w')` is the set of
    existing directories, a directory being a list of path components.
-/

set_option autoImplicit false
set_option maxRecDepth 40000

namespace EcbViz

/-- A fetched observation series: (date, value) pairs, as produced by the
`OBS_VALUE` extraction inside `fetch_ecb_rates`. -/
abbrev Series := List (Nat × ℚ)

/-- Value of a series at a date: the first observation carrying that date
(`pandas` positional alignment on a unique index). -/
def lookupS (s : Series) (d : Nat) : Option ℚ :=
  (s.find? fun p => p.1 = d).map Prod.snd

/-- `SERIES_KEYS` from the script, in source order. -/
def SERIES_KEYS : List (String × String) :=
  [("MRO (Fixed Rate)", "FM.D.U2.EUR.4F.KR.MRR_FR.LEV"),
   ("MRO (Variable Rate)", "FM.D.U2.EUR.4F.KR.MRR_MBR.LEV"),
   ("DFR", "FM.D.U2.EUR.4F.KR.DFR.LEV"),
   ("MLF", "FM.D.U2.EUR.4F.KR.MLFR.LEV"),
   ("EONIA", "EON.D.EONIA_TO.RATE"),
   ("€STR", "EST.B.EU000A2X2A25.WT")]

def mroFixedName : String := "MRO (Fixed Rate)"

def mroVariableName : String := "MRO (Variable Rate)"

/-- The per-series fetch loop of `fetch_ecb_rates`: each series is fetched
inside its own `try`; on failure the error is printed together with the
rate name and the loop continues.  Returns the collected
`rates_data` dict (insertion order) and the printed error lines. -/
def fetchLoop (get_series : String → String → Except String Series)
    (start_date : String) :
    List (String × String) → List (String × Series) × List String
  | [] => ([], [])
  | (rate_name, series_key) :: rest =>
    match get_series series_key start_date with
    | Except.ok obs =>
      let r := fetchLoop get_series start_date rest
      ((rate_name, obs) :: r.1, r.2)
    | Except.error e =>
      let r := fetchLoop get_series start_date rest
      (r.1, (("Error fetching ") ++ rate_name ++ (": ") ++ e) :: r.2)

/-- Aligned table: shared ordered date index plus one value column per
series, each column aligned with `dates`. -/
@[ext]
structure RateTable where
  dates : List Nat
  cols : List (String × List (Option ℚ))
  deriving Repr, DecidableEq

/-- All dates occurring in any series of the fetched dict. -/
def allDates (m : List (String × Series)) : List Nat :=
  (m.map fun c => c.2.map Prod.fst).flatten

/-- The outer-join index built by `pd.DataFrame(rates_data)`: sorted,
deduplicated union of the individual series' dates. -/
def dateUnion (m : List (String × Series)) : List Nat :=
  (allDates m).dedup.insertionSort (· ≤ ·)

/-- `combined_rates = pd.DataFrame(rates_data)`: outer join on date. -/
def mkTable (m : List (String × Series)) : RateTable :=
  { dates := dateUnion m,
    cols := m.map fun c => (c.1, (dateUnion m).map fun d => lookupS c.2 d) }

/-- Column of a table by name (first match, as for unique dict keys). -/
def RateTable.lookup (t : RateTable) (n : String) : Option (List (Option ℚ)) :=
  (t.cols.find? fun c => c.1 = n).map Prod.snd

/-- `n in combined_rates.columns`. -/
def RateTable.hasCol (t : RateTable) (n : String) : Bool :=
  t.cols.any fun c => c.1 = n

/-- `pandas` row mean with `skipna=True`: mean of the available values,
missing iff all inputs are missing. -/
def meanRow (vals : List (Option ℚ)) : Option ℚ :=
  let xs := vals.filterMap id
  if xs.isEmpty then none else some (xs.sum / (xs.length : ℚ))

/-- `pandas` column assignment `df[n] = c`: replace the column in place
if present, append it otherwise. -/
def setCol (cols : List (String × List (Option ℚ))) (n : String)
    (c : List (Option ℚ)) : List (String × List (Option ℚ)) :=
  if cols.any fun x => x.1 = n then
    cols.map fun x => if x.1 = n then (n, c) else x
  else cols ++ [(n, c)]

/-- The MRO-combination step of `fetch_ecb_rates`: if both MRO sub-series
columns are present, assign their per-date row mean to a column `MRO`
and drop the two source columns; otherwise leave the table untouched. -/
def combineMRO (t : RateTable) : RateTable :=
  match t.lookup mroFixedName, t.lookup mroVariableName with
  | some f, some v =>
    { dates := t.dates,
      cols := (setCol t.cols ("MRO") (List.zipWith (fun a b => meanRow [a, b]) f v)).filter
        fun c => c.1 ≠ mroFixedName ∧ c.1 ≠ mroVariableName }
  | _, _ => t

/-- The merge stage: outer join of the fetched dict followed by the
MRO combination. -/
def merge (m : List (String × Series)) : RateTable :=
  combineMRO (mkTable m)

/-- `fetch_ecb_rates`: fetch every configured series (tolerating
per-series failures), join, combine MRO.  Also returns the error lines
printed by the loop. -/
def fetch_ecb_rates (get_series : String → String → Except String Series)
    (start_date : String) : RateTable × List String :=
  let r := fetchLoop get_series start_date SERIES_KEYS
  (merge r.1, r.2)

/-! ### Rendering (`create_interactive_plot`)

The chart is modelled by the list of trace names actually added to the
figure; the textual summary block is modelled as the literal HTML string
the script builds (`rates_info`).  `fig.to_html` is an external library
call whose output the claims never inspect, so the rendered artifact is
the pair (summary HTML, trace names). -/

/-- Decimal digit characters, fuel-structural so the kernel can reduce it. -/
def digitChar (d : Nat) : Char := Char.ofNat (48 + d)

def natCharsGo : Nat → Nat → List Char → List Char
  | 0, _, acc => acc
  | fuel + 1, n, acc =>
    if n = 0 then acc else natCharsGo fuel (n / 10) (digitChar (n % 10) :: acc)

/-- Decimal representation of a natural number. -/
def natChars (n : Nat) : List Char :=
  if n = 0 then ['0'] else natCharsGo (n + 1) n []

/-- Round a rational to the nearest integer, ties to even: the rounding
used by Python float formatting. -/
def roundHalfEven (q : ℚ) : Int :=
  let f : Int := ⌊q⌋
  if q - f < 1/2 then f
  else if (1:ℚ)/2 < q - f then f + 1
  else if f % 2 = 0 then f else f + 1

def pad3 (k : Nat) : List Char :=
  if k < 10 then '0' :: '0' :: natChars k
  else if k < 100 then '0' :: natChars k
  else natChars k

/-- Python `f-string` formatting to three decimal places (`{value:.3f}`). -/
def format3 (q : ℚ) : String :=
  let n : Int := roundHalfEven (q * 1000)
  let m : Nat := n.natAbs
  String.mk ((if n < 0 then ['-'] else []) ++ natChars (m / 1000) ++ '.' :: pad3 (m % 1000))

/-- `strftime` on an abstract calendar date. -/
def dateStr (d : Nat) : String := String.mk (natChars d)

/-- The row `rates_df.iloc[-1]` evaluated at a column: the column's value
at the last date of the index. -/
def latestVal (t : RateTable) (n : String) : Option ℚ :=
  ((t.lookup n).bind List.getLast?).join

/-- `series.dropna()` paired with its dates: the (date, value) pairs where
the column is non-missing. -/
def dropNone (ds : List Nat) (col : List (Option ℚ)) : List (Nat × ℚ) :=
  (ds.zip col).filterMap fun p => p.2.map fun v => (p.1, v)

def sq : String := String.mk [Char.ofNat 39]

/-- The opening `<div>`/heading/`<ul>` prefix of `rates_info`. -/
def infoHeader : String :=
  ("<div style=") ++ sq ++
    ("font-family: Arial, sans-serif; padding: 10px; background-color: #f8f9fa; border-radius: 5px; margin-bottom: 20px;")
    ++ sq ++ (">") ++ ("<h3>Latest Available Rates:</h3>") ++ ("<ul>")

/-- The `<li>` line added for a policy rate: present in the summary iff the
column exists and its value at the latest date is non-missing. -/
def policyItem (t : RateTable) (n : String) : Option String :=
  if t.hasCol n then
    match latestVal t n with
    | some v =>
      some (("<li><strong>") ++ n ++ (":</strong> ") ++ format3 v ++ ("%</li>"))
    | none => none
  else none

/-- The `<li>` line for €STR: last non-missing observation and its date. -/
def estrItem (t : RateTable) : Option String :=
  match t.lookup ("€STR") with
  | none => none
  | some col =>
    match (dropNone t.dates col).getLast? with
    | none => none
    | some p =>
      some (("<li><strong>€STR:</strong> ") ++ format3 p.2 ++ ("% (as of ")
        ++ dateStr p.1 ++ (")</li>"))

/-- The `<li>` line for EONIA: last non-missing observation, labelled as
discontinued at its date. -/
def eoniaItem (t : RateTable) : Option String :=
  match t.lookup ("EONIA") with
  | none => none
  | some col =>
    match (dropNone t.dates col).getLast? with
    | none => none
    | some p =>
      some (("<li><strong>EONIA:</strong> ") ++ format3 p.2 ++ ("% (discontinued on ")
        ++ dateStr p.1 ++ (")</li>"))

/-- The `<li>` lines of the summary, in the order the script appends them. -/
def summaryItems (t : RateTable) : List String :=
  (["MRO", "DFR", "MLF"].filterMap fun n => policyItem t n)
    ++ (estrItem t).toList ++ (eoniaItem t).toList

def joinAll : List String → String
  | [] => ""
  | s :: rest => s ++ joinAll rest

/-- The complete `rates_info` HTML block, `now` being the wall-clock
timestamp text. -/
def ratesInfo (now : String) (t : RateTable) : String :=
  infoHeader ++ joinAll (summaryItems t)
    ++ ("</ul>") ++ ("<p><em>Last updated: ") ++ now ++ ("</em></p>") ++ ("</div>")

/-- Names of the traces added to the figure: policy rates first (solid
lines), then the reference rates (dashed), each only if its column is
present. -/
def chartTraces (t : RateTable) : List String :=
  (["MRO", "DFR", "MLF"].filter fun n => t.hasCol n)
    ++ (["€STR", "EONIA"].filter fun n => t.hasCol n)

/-- The in-memory part of `create_interactive_plot` on an explicit table:
builds the figure and the summary.  `rates_df.iloc[-1]` raises
`IndexError` on a table with no rows; everything else is total. -/
def createPlot (now : String) (t : RateTable) : Except String (List String × String) :=
  if t.dates.isEmpty then
    Except.error ("single positional indexer is out-of-bounds")
  else
    Except.ok (chartTraces t, ratesInfo now t)

/-! ### Filesystem side of `create_interactive_plot`

`os.makedirs(os.path.dirname(output_path), exist_ok=True)` followed by
`open(output_path, 'w')`.  A path is a directory (list of components)
plus a file name; the filesystem is the list of existing directories,
the current directory `[]` always existing. -/

structure Path where
  dir : List String
  file : String
  deriving Repr, DecidableEq

/-- Directories existing on the abstract filesystem. -/
abbrev FS := List (List String)

/-- `os.makedirs(d, exist_ok=True)`: creates `d` and every missing
ancestor. -/
def makedirs (fs : FS) (d : List String) : FS :=
  (d.inits.filter fun a => a ≠ []) ++ fs

/-- `open(path, 'w').write(...)`: succeeds iff the parent directory
exists. -/
def writeFile (fs : FS) (p : Path) : Except String FS :=
  if p.dir = [] ∨ p.dir ∈ fs then Except.ok fs
  else Except.error ("No such file or directory")

/-- The write tail of `create_interactive_plot`: ensure the directory
exists, then write the HTML file.  `os.path.dirname` of a bare file name
is `''` and `os.makedirs('')` raises `FileNotFoundError`. -/
def saveHtml (fs : FS) (p : Path) : Except String FS :=
  if p.dir = [] then Except.error ("FileNotFoundError")
  else writeFile (makedirs fs p.dir) p

/-! ### `main` -/

/-- The `try`/`except` of `main`: run the fetch stage, then the render
stage; any error is caught once, printed, and turned into exit code 1;
otherwise the exit code is 0.  Returns (exit code, printed error lines). -/
def mainRun (fetchAll : Except String RateTable)
    (render : RateTable → Except String Unit) : Nat × List String :=
  match fetchAll with
  | Except.error e => (1, [("Error generating visualization: ") ++ e])
  | Except.ok t =>
    match render t with
    | Except.error e => (1, [("Error generating visualization: ") ++ e])
    | Except.ok _ => (0, [])

/-! ### Observers for the rendered summary text

The summary block is HTML; "the rendered summary text" of the spec is
what a browser displays, i.e. the character stream outside of tags.
`stripTags` computes it, `strHasSub` is literal substring containment. -/

/-- Does `pat` occur at the start of the second list? -/
def leadsWith : List Char → List Char → Bool
  | [], _ => true
  | _ :: _, [] => false
  | a :: as, b :: bs => a = b && leadsWith as bs

/-- Does `pat` occur contiguously anywhere in the list? -/
def hasSubList (pat : List Char) : List Char → Bool
  | [] => pat.isEmpty
  | c :: t => leadsWith pat (c :: t) || hasSubList pat t

/-- Literal substring containment. -/
def strHasSub (s pat : String) : Bool := hasSubList pat.data s.data

/-- Drop everything between `<` and `>`; the Bool is the inside-a-tag
state. -/
def stripAux : Bool → List Char → List Char
  | _, [] => []
  | b, c :: t =>
    if c = '<' then stripAux true t
    else if b then (if c = '>' then stripAux false t else stripAux true t)
    else c :: stripAux false t

/-- The inside-a-tag state after scanning a list. -/
def tagState : Bool → List Char → Bool
  | b, [] => b
  | b, c :: t =>
    if c = '<' then tagState true t
    else if b then (if c = '>' then tagState false t else tagState true t)
    else tagState false t

/-- The text a browser displays for an HTML fragment. -/
def stripTags (s : String) : String := String.mk (stripAux false s.data)

/-- Read a table back as a dict of series (each column with its
non-missing observations), e.g. to feed `merge` its own output. -/
def tableToSeries (t : RateTable) : List (String × Series) :=
  t.cols.map fun c => (c.1, dropNone t.dates c.2)

/-! ### Concrete example tables and oracles used by witnesses -/

def dfrKey : String := "FM.D.U2.EUR.4F.KR.DFR.LEV"

/-- An upstream oracle where only the DFR fetch raises. -/
def getSeriesC1 : String → String → Except String Series :=
  fun key _ => if key = dfrKey then Except.error ("404 Not Found") else Except.ok [(0, 1)]

/-- Both MRO sub-series present with 4.50 and 4.75 at one date. -/
def tableC2 : RateTable :=
  { dates := [0],
    cols := [(mroFixedName, [some (9/2)]), (mroVariableName, [some (19/4)])] }

/-- Sub-series inputs that are both present, half present, and both
missing across three dates. -/
def tableC3 : RateTable :=
  { dates := [0, 1, 2],
    cols := [(mroFixedName, [some 2, none, none]),
             (mroVariableName, [some 4, some 6, none])] }

/-- The table produced when every fetch fails: no columns, no rows. -/
def emptyTable : RateTable := { dates := [], cols := [] }

/-- MRO present, but missing at the latest date (its latest non-missing
value is 4.50 at the earlier date). -/
def tableC5 : RateTable :=
  { dates := [0, 1], cols := [("MRO", [some (9/2), none])] }

/-- Policy values 4.50, 4.75, 5.00 at the latest (single) date. -/
def tableC5w : RateTable :=
  { dates := [0],
    cols := [("MRO", [some (9/2)]), ("DFR", [some (19/4)]), ("MLF", [some 5])] }

/-- A one-row table carrying only a DFR column. -/
def tableC6 : RateTable := { dates := [0], cols := [("DFR", [some (19/4)])] }

/-- A small fetched mapping exercising the merge: both MRO sub-series on
different dates plus a DFR series. -/
def seriesC7 : List (String × Series) :=
  [(mroFixedName, [(0, 2)]), (mroVariableName, [(1, 4)]), ("DFR", [(0, 3)])]

end EcbViz

namespace EcbViz

/-! ### General lemmas -/

theorem data_append (s t : String) : (s ++ t).data = s.data ++ t.data := rfl

theorem tagState_append (x : List Char) :
    ∀ (b : Bool) (y : List Char), tagState b (x ++ y) = tagState (tagState b x) y := by
  induction x with
  | nil => intro b y; rfl
  | cons c t ih =>
    intro b y
    by_cases hc : c = '<'
    · simp [tagState, hc, ih]
    · cases b with
      | false => simp [tagState, hc, ih]
      | true =>
        by_cases hg : c = '>'
        · simp [tagState, hc, hg, ih]
        · simp [tagState, hc, hg, ih]

theorem stripAux_append (x : List Char) :
    ∀ (b : Bool) (y : List Char),
      stripAux b (x ++ y) = stripAux b x ++ stripAux (tagState b x) y := by
  induction x with
  | nil => intro b y; rfl
  | cons c t ih =>
    intro b y
    by_cases hc : c = '<'
    · simp [stripAux, tagState, hc, ih]
    · cases b with
      | false => simp [stripAux, tagState, hc, ih]
      | true =>
        by_cases hg : c = '>'
        · simp [stripAux, tagState, hc, hg, ih]
        · simp [stripAux, tagState, hc, hg, ih]

theorem tagState_of_noTag (l : List Char) (b : Bool)
    (h : ∀ c ∈ l, c ≠ '<' ∧ c ≠ '>') : tagState b l = b := by
  induction l generalizing b with
  | nil => rfl
  | cons c t ih =>
    have hc := h c (List.mem_cons_self c t)
    have ht : ∀ c ∈ t, c ≠ '<' ∧ c ≠ '>' := fun x hx => h x (List.mem_cons_of_mem c hx)
    cases b with
    | false => simp [tagState, hc.1, ih _ ht]
    | true => simp [tagState, hc.1, hc.2, ih _ ht]

theorem stripAux_false_of_noTag (l : List Char)
    (h : ∀ c ∈ l, c ≠ '<' ∧ c ≠ '>') : stripAux false l = l := by
  induction l with
  | nil => rfl
  | cons c t ih =>
    have hc := h c (List.mem_cons_self c t)
    have ht : ∀ c ∈ t, c ≠ '<' ∧ c ≠ '>' := fun x hx => h x (List.mem_cons_of_mem c hx)
    simp [stripAux, hc.1, ih ht]

theorem leadsWith_append (p : List Char) :
    ∀ y : List Char, leadsWith p (p ++ y) = true := by
  induction p with
  | nil => intro y; rfl
  | cons a as ih => intro y; simp [leadsWith, ih]

theorem hasSubList_append_left (p y : List Char) (h : hasSubList p y = true) :
    ∀ x : List Char, hasSubList p (x ++ y) = true := by
  intro x
  induction x with
  | nil => simpa using h
  | cons c t ih => simp [hasSubList, ih]

theorem hasSubList_self_append (p y : List Char) : hasSubList p (p ++ y) = true := by
  cases p with
  | nil =>
    cases y with
    | nil => rfl
    | cons c t => simp [hasSubList, leadsWith]
  | cons a as => simp [hasSubList, leadsWith, leadsWith_append]

/-! ### Claim theorems: C4, C8, C9 -/

theorem hasCol_eq_false_iff (t : RateTable) (n : String) :
    t.hasCol n = false ↔ t.lookup n = none := by
  simp [RateTable.hasCol, RateTable.lookup, List.find?_eq_none, List.any_eq_true]

theorem combineMRO_eq_self (t : RateTable)
    (h : t.lookup mroFixedName = none ∨ t.lookup mroVariableName = none) :
    combineMRO t = t := by
  unfold combineMRO
  rcases h with h | h <;>
    rcases hf : t.lookup mroFixedName with _ | f <;>
    rcases hv : t.lookup mroVariableName with _ | v <;>
    simp_all

/-- C4: if only one of the two MRO sub-series columns is present, or
neither is, the combination step produces no derived "MRO" column and
leaves the table unchanged: the available sub-series column (if any)
stays under its own name. -/
theorem combineMRO_not_both (t : RateTable)
    (h : t.hasCol mroFixedName = false ∨ t.hasCol mroVariableName = false) :
    combineMRO t = t ∧
      (t.hasCol ("MRO") = false → (combineMRO t).hasCol ("MRO") = false) := by
  have h' : t.lookup mroFixedName = none ∨ t.lookup mroVariableName = none := by
    rcases h with h | h
    · exact Or.inl ((hasCol_eq_false_iff t _).1 h)
    · exact Or.inr ((hasCol_eq_false_iff t _).1 h)
  have heq : combineMRO t = t := combineMRO_eq_self t h'
  exact ⟨heq, fun hm => by rw [heq]; exact hm⟩

/-- C4 witness: a table holding only the fixed-rate sub-series passes
through the combination step unchanged. -/
theorem combineMRO_not_both_witness :
    combineMRO { dates := [0], cols := [(mroFixedName, [some (9/2)])] } =
        { dates := [0], cols := [(mroFixedName, [some (9/2)])] } ∧
      (RateTable.hasCol { dates := [0], cols := [(mroFixedName, [some (9/2)])] } ("MRO") = false →
        (combineMRO { dates := [0], cols := [(mroFixedName, [some (9/2)])] }).hasCol ("MRO") = false) :=
  combineMRO_not_both _ (Or.inr (by decide))

theorem find?_key_eq_of {β : Type} (L : List (String × β)) (n : String) (d : β)
    (hall : ∀ c ∈ L, c.1 = n → c.2 = d) (hex : ∃ c ∈ L, c.1 = n) :
    (L.find? fun c => c.1 = n).map Prod.snd = some d := by
  induction L with
  | nil => simp at hex
  | cons a t ih =>
    by_cases ha : a.1 = n
    · rw [List.find?_cons_of_pos _ (by simpa using ha)]
      simp [hall a (List.mem_cons_self a t) ha]
    · rw [List.find?_cons_of_neg _ (by simpa using ha)]
      apply ih
      · exact fun c hc => hall c (List.mem_cons_of_mem a hc)
      · rcases hex with ⟨c, hc, hcn⟩
        rcases List.mem_cons.1 hc with rfl | hc
        · exact absurd hcn ha
        · exact ⟨c, hc, hcn⟩

theorem setCol_mem_key (cols : List (String × List (Option ℚ))) (n : String)
    (d : List (Option ℚ)) :
    ∀ c ∈ setCol cols n d, c.1 = n → c.2 = d := by
  intro c hc hcn
  unfold setCol at hc
  by_cases hany : cols.any fun x => x.1 = n
  · rw [if_pos hany] at hc
    rcases List.mem_map.1 hc with ⟨x, _, hx⟩
    by_cases hxn : x.1 = n
    · rw [if_pos hxn] at hx; rw [← hx]
    · rw [if_neg hxn] at hx; rw [← hx] at hcn; exact absurd hcn hxn
  · rw [if_neg hany] at hc
    rcases List.mem_append.1 hc with hc | hc
    · exact absurd (List.any_eq_true.2 ⟨c, hc, by simpa using hcn⟩) hany
    · rw [List.mem_singleton] at hc
      rw [hc]

theorem setCol_mem_exists (cols : List (String × List (Option ℚ))) (n : String)
    (d : List (Option ℚ)) :
    ∃ c ∈ setCol cols n d, c.1 = n ∧ c.2 = d := by
  unfold setCol
  by_cases hany : cols.any fun x => x.1 = n
  · rw [if_pos hany]
    rcases List.any_eq_true.1 hany with ⟨x, hx, hxn⟩
    refine ⟨(n, d), List.mem_map.2 ⟨x, hx, ?_⟩, rfl, rfl⟩
    rw [if_pos (by simpa using hxn)]
  · rw [if_neg hany]
    exact ⟨(n, d), List.mem_append.2 (Or.inr (by simp)), rfl, rfl⟩

theorem lookup_combineMRO_MRO (t : RateTable) (f v : List (Option ℚ))
    (hf : t.lookup mroFixedName = some f) (hv : t.lookup mroVariableName = some v) :
    (combineMRO t).lookup ("MRO") =
      some (List.zipWith (fun a b => meanRow [a, b]) f v) := by
  unfold combineMRO
  rw [hf, hv]
  unfold RateTable.lookup
  apply find?_key_eq_of
  · intro c hc hcn
    exact setCol_mem_key _ _ _ c (List.mem_filter.1 hc).1 hcn
  · rcases setCol_mem_exists t.cols ("MRO")
        (List.zipWith (fun a b => meanRow [a, b]) f v) with ⟨c, hc, hcn, _⟩
    refine ⟨c, List.mem_filter.2 ⟨hc, ?_⟩, hcn⟩
    rw [hcn]
    decide

theorem hasCol_combineMRO_dropped (t : RateTable) (f v : List (Option ℚ))
    (hf : t.lookup mroFixedName = some f) (hv : t.lookup mroVariableName = some v) :
    (combineMRO t).hasCol mroFixedName = false ∧
      (combineMRO t).hasCol mroVariableName = false := by
  unfold combineMRO
  rw [hf, hv]
  unfold RateTable.hasCol
  refine ⟨?_, ?_⟩ <;>
  · rw [List.any_eq_false]
    intro c hc
    have h2 := (List.mem_filter.1 hc).2
    simp only [decide_eq_true_eq] at h2 ⊢
    first
    | exact h2.1
    | exact h2.2

/-- C2: when both MRO sub-series columns are present, the combination
step gives the new "MRO" column, for each date, the row mean of the two
sub-series (the arithmetic mean when both values are available) and
removes both source columns; for the one-date inputs 4.50 and 4.75 the
merged MRO value is 4.625 and neither sub-column remains. -/
theorem combineMRO_both_mean (t : RateTable) (f v : List (Option ℚ))
    (hf : t.lookup mroFixedName = some f) (hv : t.lookup mroVariableName = some v) :
    (combineMRO t).lookup ("MRO") =
        some (List.zipWith (fun a b => meanRow [a, b]) f v) ∧
      (∀ a b : ℚ, meanRow [some a, some b] = some ((a + b) / 2)) ∧
      (combineMRO t).hasCol mroFixedName = false ∧
      (combineMRO t).hasCol mroVariableName = false ∧
      merge [(mroFixedName, [(0, 9/2)]), (mroVariableName, [(0, 19/4)])] =
        { dates := [0], cols := [("MRO", [some (37/8)])] } := by
  refine ⟨lookup_combineMRO_MRO t f v hf hv, ?_,
    (hasCol_combineMRO_dropped t f v hf hv).1,
    (hasCol_combineMRO_dropped t f v hf hv).2, ?_⟩
  · intro a b
    simp [meanRow]
  · have hd : dateUnion
        [(("MRO (Fixed Rate)" : String), [((0:ℕ), (9:ℚ)/2)]),
         (("MRO (Variable Rate)" : String), [((0:ℕ), (19:ℚ)/4)])] = [0] := by
      simp [dateUnion, allDates, List.insertionSort]
    have hm : meanRow [some ((9:ℚ)/2), some ((19:ℚ)/4)] = some (37/8) := by
      simp [meanRow]
      norm_num
    simp [merge, mkTable, combineMRO, RateTable.lookup, lookupS, setCol,
      mroFixedName, mroVariableName, hd, hm]

/-- C3: for every date of the merged table the derived MRO value follows
`skipna` mean semantics over the two sub-series values at that date:
the arithmetic mean when both are available, the single value when
exactly one is missing, and missing only when both are missing. -/
theorem combineMRO_mean_skipna (t : RateTable) (f v : List (Option ℚ))
    (hf : t.lookup mroFixedName = some f) (hv : t.lookup mroVariableName = some v) :
    (combineMRO t).lookup ("MRO") =
        some (List.zipWith (fun a b => meanRow [a, b]) f v) ∧
      (∀ a b : ℚ, meanRow [some a, some b] = some ((a + b) / 2)) ∧
      (∀ a : ℚ, meanRow [some a, none] = some a) ∧
      (∀ b : ℚ, meanRow [none, some b] = some b) ∧
      meanRow ([none, none] : List (Option ℚ)) = none := by
  refine ⟨lookup_combineMRO_MRO t f v hf hv, ?_, ?_, ?_, by simp [meanRow]⟩
  · intro a b
    simp [meanRow]
  · intro a
    simp [meanRow]
  · intro b
    simp [meanRow]

/-- C2 witness: the combination applied to the table carrying
4.50/4.75 at one date produces the derived MRO column. -/
theorem combineMRO_both_mean_witness :
    (combineMRO tableC2).lookup ("MRO") =
      some (List.zipWith (fun a b => meanRow [a, b]) [some ((9:ℚ)/2)] [some ((19:ℚ)/4)]) :=
  (combineMRO_both_mean tableC2 _ _ rfl rfl).1

/-- C3 witness: skipna semantics exercised on a table where the inputs
are both present, half present, and both missing across three dates. -/
theorem combineMRO_mean_skipna_witness :
    (combineMRO tableC3).lookup ("MRO") =
        some (List.zipWith (fun a b => meanRow [a, b])
          [some (2:ℚ), none, none] [some (4:ℚ), some 6, none]) ∧
      meanRow ([none, none] : List (Option ℚ)) = none :=
  ⟨(combineMRO_mean_skipna tableC3 _ _ rfl rfl).1,
   (combineMRO_mean_skipna tableC3 _ _ rfl rfl).2.2.2.2⟩

theorem dates_combineMRO (t : RateTable) : (combineMRO t).dates = t.dates := by
  rcases hF : t.lookup mroFixedName with _ | f <;>
    rcases hV : t.lookup mroVariableName with _ | v <;>
    simp [combineMRO, hF, hV]

theorem fetchLoop_names_sub (g : String → String → Except String Series) (sd : String) :
    ∀ l : List (String × String), ∀ n ∈ (fetchLoop g sd l).1.map Prod.fst,
      n ∈ l.map Prod.fst := by
  intro l
  induction l with
  | nil => intro n hn; simp [fetchLoop] at hn
  | cons a rest ih =>
    intro n hn
    rcases a with ⟨name, key⟩
    cases hg : g key sd with
    | ok s =>
      rw [List.map_cons]
      simp only [fetchLoop, hg] at hn
      rcases List.mem_cons.1 hn with h | h
      · exact List.mem_cons.2 (Or.inl h)
      · exact List.mem_cons.2 (Or.inr (ih n h))
    | error e =>
      rw [List.map_cons]
      simp only [fetchLoop, hg] at hn
      exact List.mem_cons.2 (Or.inr (ih n hn))

theorem fetchLoop_error_log (g : String → String → Except String Series) (sd : String) :
    ∀ (l : List (String × String)) (name key e : String), (name, key) ∈ l →
      g key sd = Except.error e →
      (("Error fetching ") ++ name ++ (": ") ++ e) ∈ (fetchLoop g sd l).2 := by
  intro l
  induction l with
  | nil => intro name key e h; simp at h
  | cons a rest ih =>
    intro name key e hmem herr
    rcases a with ⟨n0, k0⟩
    rcases List.mem_cons.1 hmem with h | h
    · injection h with h1 h2
      subst h1; subst h2
      simp [fetchLoop, herr]
    · cases hg : g k0 sd with
      | ok s => simpa [fetchLoop, hg] using ih name key e h herr
      | error e0 =>
        simp only [fetchLoop, hg]
        exact List.mem_cons.2 (Or.inr (ih name key e h herr))

theorem fetchLoop_name_absent (g : String → String → Except String Series) (sd : String) :
    ∀ (l : List (String × String)) (name key e : String), (l.map Prod.fst).Nodup →
      (name, key) ∈ l → g key sd = Except.error e →
      name ∉ (fetchLoop g sd l).1.map Prod.fst := by
  intro l
  induction l with
  | nil => intro name key e _ h; simp at h
  | cons a rest ih =>
    intro name key e hnd hmem herr
    rcases a with ⟨n0, k0⟩
    rw [List.map_cons, List.nodup_cons] at hnd
    rcases List.mem_cons.1 hmem with h | h
    · injection h with h1 h2
      subst h1; subst h2
      simp only [fetchLoop, herr]
      intro hcontra
      exact hnd.1 (fetchLoop_names_sub g sd rest name hcontra)
    · have hne : name ≠ n0 := by
        intro hEq
        subst hEq
        exact hnd.1 (List.mem_map.2 ⟨(name, key), h, rfl⟩)
      cases hg : g k0 sd with
      | ok s =>
        simp only [fetchLoop, hg, List.map_cons, List.mem_cons]
        intro hcontra
        rcases hcontra with hcontra | hcontra
        · exact hne hcontra
        · exact ih name key e hnd.2 h herr hcontra
      | error e0 =>
        simp only [fetchLoop, hg]
        exact ih name key e hnd.2 h herr

theorem hasCol_mkTable (m : List (String × Series)) (n : String) :
    (mkTable m).hasCol n = true ↔ n ∈ m.map Prod.fst := by
  simp only [mkTable, RateTable.hasCol, List.any_eq_true, List.mem_map, decide_eq_true_eq]
  constructor
  · rintro ⟨c, ⟨x, hx, rfl⟩, hn⟩
    exact ⟨x, hx, hn⟩
  · rintro ⟨x, hx, rfl⟩
    exact ⟨(x.1, (dateUnion m).map fun d => lookupS x.2 d), ⟨x, hx, rfl⟩, rfl⟩

theorem hasCol_combineMRO_sub (t : RateTable) (n : String)
    (h : (combineMRO t).hasCol n = true) : t.hasCol n = true ∨ n = "MRO" := by
  rcases hF : t.lookup mroFixedName with _ | f <;>
    rcases hV : t.lookup mroVariableName with _ | v <;>
    simp only [combineMRO, hF, hV] at h
  · exact Or.inl h
  · exact Or.inl h
  · exact Or.inl h
  · simp only [RateTable.hasCol, List.any_eq_true, decide_eq_true_eq] at h
    rcases h with ⟨c, hc, hcn⟩
    have hc' := (List.mem_filter.1 hc).1
    unfold setCol at hc'
    by_cases hany : t.cols.any fun x => x.1 = ("MRO")
    · rw [if_pos hany] at hc'
      rcases List.mem_map.1 hc' with ⟨x, hx, hfx⟩
      by_cases hxm : x.1 = ("MRO")
      · rw [if_pos hxm] at hfx
        right; rw [← hfx] at hcn; exact hcn.symm ▸ rfl
      · rw [if_neg hxm] at hfx
        left
        exact List.any_eq_true.2 ⟨x, hx, by simp [hfx ▸ hcn]⟩
    · rw [if_neg hany] at hc'
      rcases List.mem_append.1 hc' with hc' | hc'
      · exact Or.inl (List.any_eq_true.2 ⟨c, hc', by simp [hcn]⟩)
      · rw [List.mem_singleton] at hc'
        right; rw [hc'] at hcn; exact hcn.symm ▸ rfl

theorem find?_filter_of_imp {α : Type} (p q : α → Bool)
    (h : ∀ x, p x = true → q x = true) :
    ∀ l : List α, (l.filter q).find? p = l.find? p := by
  intro l
  induction l with
  | nil => rfl
  | cons a t ih =>
    by_cases hq : q a = true
    · rw [List.filter_cons_of_pos hq]
      by_cases hp : p a = true
      · rw [List.find?_cons_of_pos _ hp, List.find?_cons_of_pos _ hp]
      · rw [List.find?_cons_of_neg _ (by simpa using hp),
          List.find?_cons_of_neg _ (by simpa using hp), ih]
    · have hp : ¬p a = true := fun hpa => hq (h a hpa)
      rw [List.filter_cons_of_neg (by simpa using hq),
        List.find?_cons_of_neg _ (by simpa using hp), ih]

theorem find?_append_of_none {α : Type} (p : α → Bool) (l₂ : List α)
    (h : l₂.find? p = none) :
    ∀ l₁ : List α, (l₁ ++ l₂).find? p = l₁.find? p := by
  intro l₁
  induction l₁ with
  | nil => simpa using h
  | cons a t ih =>
    by_cases hp : p a = true
    · rw [List.cons_append, List.find?_cons_of_pos _ hp, List.find?_cons_of_pos _ hp]
    · rw [List.cons_append, List.find?_cons_of_neg _ (by simpa using hp),
        List.find?_cons_of_neg _ (by simpa using hp), ih]

theorem find?_map_replace (sn : String) (d : List (Option ℚ)) (n : String)
    (h : n ≠ sn) :
    ∀ cols : List (String × List (Option ℚ)),
      ((cols.map fun x => if x.1 = sn then (sn, d) else x).find? fun c => c.1 = n) =
        cols.find? fun c => c.1 = n := by
  intro cols
  induction cols with
  | nil => rfl
  | cons a t ih =>
    by_cases ha : a.1 = sn
    · rw [List.map_cons, if_pos ha]
      rw [List.find?_cons_of_neg _ (by
        simp only [decide_eq_true_eq]
        exact fun hEq => h hEq.symm)]
      rw [List.find?_cons_of_neg _ (by
        simp only [decide_eq_true_eq]
        intro hEq
        apply h
        rw [← hEq, ha])]
      exact ih
    · rw [List.map_cons, if_neg ha]
      by_cases hpa : a.1 = n
      · rw [List.find?_cons_of_pos _ (by simpa using hpa),
          List.find?_cons_of_pos _ (by simpa using hpa)]
      · rw [List.find?_cons_of_neg _ (by simpa using hpa),
          List.find?_cons_of_neg _ (by simpa using hpa)]
        exact ih

theorem find?_setCol_ne (cols : List (String × List (Option ℚ))) (sn : String)
    (d : List (Option ℚ)) (n : String) (h : n ≠ sn) :
    ((setCol cols sn d).find? fun c => c.1 = n) = cols.find? fun c => c.1 = n := by
  unfold setCol
  by_cases hany : cols.any fun x => x.1 = sn
  · rw [if_pos hany]
    exact find?_map_replace sn d n h cols
  · rw [if_neg hany]
    apply find?_append_of_none
    simp only [List.find?_eq_none, List.mem_singleton]
    intro x hx
    rw [hx]
    simp only [decide_eq_true_eq]
    exact fun hEq => h hEq.symm

theorem lookup_combineMRO_frame (t : RateTable) (n : String)
    (hnf : n ≠ mroFixedName) (hnv : n ≠ mroVariableName) (hnm : n ≠ "MRO") :
    (combineMRO t).lookup n = t.lookup n := by
  rcases hF : t.lookup mroFixedName with _ | f <;>
    rcases hV : t.lookup mroVariableName with _ | v <;>
    simp only [combineMRO, hF, hV]
  unfold RateTable.lookup
  rw [find?_filter_of_imp _ _ ?imp, find?_setCol_ne _ _ _ _ hnm]
  case imp =>
    intro x hx
    simp only [decide_eq_true_eq] at hx
    simp [hx, hnf, hnv]

theorem hasCol_eq_true_iff (t : RateTable) (n : String) :
    t.hasCol n = true ↔ t.lookup n ≠ none := by
  constructor
  · intro h hnone
    have hfalse := (hasCol_eq_false_iff t n).2 hnone
    rw [h] at hfalse
    exact absurd hfalse (by decide)
  · intro h
    cases hcase : t.hasCol n with
    | false => exact absurd ((hasCol_eq_false_iff t n).1 hcase) h
    | true => rfl

/-- A series whose fetch raises is logged with its rate name and is
excluded from the merged table. -/
theorem fetch_series_fail_excluded (g : String → String → Except String Series)
    (sd name key e : String) (hmem : (name, key) ∈ SERIES_KEYS)
    (herr : g key sd = Except.error e) :
    (("Error fetching ") ++ name ++ (": ") ++ e) ∈ (fetch_ecb_rates g sd).2 ∧
      (fetch_ecb_rates g sd).1.hasCol name = false := by
  constructor
  · exact fetchLoop_error_log g sd SERIES_KEYS name key e hmem herr
  · have hnm : name ≠ "MRO" := by
      have hall : ∀ p ∈ SERIES_KEYS, ¬p.1 = "MRO" := by decide
      exact hall (name, key) hmem
    have hnd : (SERIES_KEYS.map Prod.fst).Nodup := by decide
    cases hcase : (fetch_ecb_rates g sd).1.hasCol name with
    | false => rfl
    | true =>
      exfalso
      have hsub : (combineMRO (mkTable (fetchLoop g sd SERIES_KEYS).1)).hasCol name = true :=
        hcase
      rcases hasCol_combineMRO_sub _ name hsub with h | h
      · have hmemdata := (hasCol_mkTable _ name).1 h
        exact fetchLoop_name_absent g sd SERIES_KEYS name key e hnd hmem herr hmemdata
      · exact hnm h

/-- C1 counterexample: with only the DFR fetch raising and the other five
series succeeding, the resulting table has four columns, not the five
the claim states (both MRO sub-series merged into one column). -/
theorem fetch_dfr_fail_counterexample :
    (fetch_ecb_rates getSeriesC1 ("1999-01")).1.cols.map Prod.fst =
        ["MLF", "EONIA", "€STR", "MRO"] ∧
      (fetch_ecb_rates getSeriesC1 ("1999-01")).1.cols.length = 4 ∧
      ¬(fetch_ecb_rates getSeriesC1 ("1999-01")).1.cols.length = 5 := by
  refine ⟨?_, ?_, ?_⟩ <;> decide

/-- C1 (amended): per-series fetch failures are non-fatal and are logged
with the rate name; if only the DFR fetch raises while the other five
series succeed, the run completes and the resulting table has exactly
four columns — MLF, EONIA, €STR and the merged MRO — and no DFR
column. -/
theorem fetch_only_dfr_fails (g : String → String → Except String Series)
    (sd e : String) (s1 s2 s3 s4 s5 : Series)
    (h1 : g ("FM.D.U2.EUR.4F.KR.MRR_FR.LEV") sd = Except.ok s1)
    (h2 : g ("FM.D.U2.EUR.4F.KR.MRR_MBR.LEV") sd = Except.ok s2)
    (hd : g ("FM.D.U2.EUR.4F.KR.DFR.LEV") sd = Except.error e)
    (h3 : g ("FM.D.U2.EUR.4F.KR.MLFR.LEV") sd = Except.ok s3)
    (h4 : g ("EON.D.EONIA_TO.RATE") sd = Except.ok s4)
    (h5 : g ("EST.B.EU000A2X2A25.WT") sd = Except.ok s5) :
    (fetch_ecb_rates g sd).2 = [("Error fetching DFR: ") ++ e] ∧
      (fetch_ecb_rates g sd).1.cols.map Prod.fst = ["MLF", "EONIA", "€STR", "MRO"] ∧
      (fetch_ecb_rates g sd).1.hasCol ("DFR") = false ∧
      (fetch_ecb_rates g sd).1.cols.length = 4 ∧
      (∀ name key e2 : String, (name, key) ∈ SERIES_KEYS → g key sd = Except.error e2 →
        (("Error fetching ") ++ name ++ (": ") ++ e2) ∈ (fetch_ecb_rates g sd).2 ∧
          (fetch_ecb_rates g sd).1.hasCol name = false) := by
  have hdata : fetchLoop g sd SERIES_KEYS =
      ([(mroFixedName, s1), (mroVariableName, s2), ("MLF", s3), ("EONIA", s4), ("€STR", s5)],
        [("Error fetching DFR: ") ++ e]) := by
    simp [SERIES_KEYS, fetchLoop, h1, h2, hd, h3, h4, h5, mroFixedName, mroVariableName]
  have hsplit : fetch_ecb_rates g sd =
      (merge [(mroFixedName, s1), (mroVariableName, s2), ("MLF", s3), ("EONIA", s4), ("€STR", s5)],
        [("Error fetching DFR: ") ++ e]) := by
    rw [fetch_ecb_rates, hdata]
  rw [hsplit]
  refine ⟨rfl, ?_, ?_, ?_, ?_⟩
  · simp [merge, mkTable, combineMRO, RateTable.lookup, setCol,
      mroFixedName, mroVariableName]
  · simp [merge, mkTable, combineMRO, RateTable.lookup, RateTable.hasCol, setCol,
      mroFixedName, mroVariableName]
  · simp [merge, mkTable, combineMRO, RateTable.lookup, setCol,
      mroFixedName, mroVariableName]
  · intro name key e2 hmem herr
    have h := fetch_series_fail_excluded g sd name key e2 hmem herr
    rw [hsplit] at h
    exact h

/-- C1 witness: the amended statement at a concrete oracle where only the
DFR fetch raises. -/
theorem fetch_only_dfr_fails_witness :
    (fetch_ecb_rates getSeriesC1 ("1999-01")).2 =
        [("Error fetching DFR: ") ++ ("404 Not Found")] ∧
      (fetch_ecb_rates getSeriesC1 ("1999-01")).1.hasCol ("DFR") = false :=
  ⟨(fetch_only_dfr_fails getSeriesC1 ("1999-01") ("404 Not Found") _ _ _ _ _
      rfl rfl rfl rfl rfl rfl).1,
   (fetch_only_dfr_fails getSeriesC1 ("1999-01") ("404 Not Found") _ _ _ _ _
      rfl rfl rfl rfl rfl rfl).2.2.1⟩

/-- C10: the MRO combination step touches only the MRO-related columns:
every fetched column other than the two sub-series keeps exactly its
outer-join-aligned values, and the date index is unchanged. -/
theorem combineMRO_frame_fetched (g : String → String → Except String Series)
    (sd n : String)
    (hmem : n ∈ (fetchLoop g sd SERIES_KEYS).1.map Prod.fst)
    (hnf : n ≠ mroFixedName) (hnv : n ≠ mroVariableName) :
    (fetch_ecb_rates g sd).1.lookup n =
        (mkTable (fetchLoop g sd SERIES_KEYS).1).lookup n ∧
      (fetch_ecb_rates g sd).1.hasCol n = true ∧
      (fetch_ecb_rates g sd).1.dates = (mkTable (fetchLoop g sd SERIES_KEYS).1).dates := by
  have hnm : n ≠ "MRO" := by
    have hsub := fetchLoop_names_sub g sd SERIES_KEYS n hmem
    have hall : ∀ m ∈ SERIES_KEYS.map Prod.fst, ¬m = "MRO" := by decide
    exact hall n hsub
  have heq : (fetch_ecb_rates g sd).1 =
      combineMRO (mkTable (fetchLoop g sd SERIES_KEYS).1) := rfl
  have hframe := lookup_combineMRO_frame (mkTable (fetchLoop g sd SERIES_KEYS).1) n hnf hnv hnm
  refine ⟨by rw [heq]; exact hframe, ?_, by rw [heq]; exact dates_combineMRO _⟩
  rw [heq]
  apply (hasCol_eq_true_iff _ n).2
  rw [hframe]
  exact (hasCol_eq_true_iff _ n).1 ((hasCol_mkTable _ n).2 hmem)

/-- C10 witness: with only DFR failing, the MLF column of the merged
table is exactly its outer-join column and the dates are unchanged. -/
theorem combineMRO_frame_fetched_witness :
    (fetch_ecb_rates getSeriesC1 ("1999-01")).1.lookup ("MLF") =
        (mkTable (fetchLoop getSeriesC1 ("1999-01") SERIES_KEYS).1).lookup ("MLF") ∧
      (fetch_ecb_rates getSeriesC1 ("1999-01")).1.hasCol ("MLF") = true ∧
      (fetch_ecb_rates getSeriesC1 ("1999-01")).1.dates =
        (mkTable (fetchLoop getSeriesC1 ("1999-01") SERIES_KEYS).1).dates :=
  combineMRO_frame_fetched getSeriesC1 ("1999-01") ("MLF")
    (by decide) (by decide) (by decide)

/-- C8: the exit code of `main` is 0 exactly when both the fetch stage
and the render stage return without raising, 1 otherwise; a failure is
logged exactly once and a success logs nothing. -/
theorem mainRun_exit (f : Except String RateTable)
    (r : RateTable → Except String Unit) :
    ((mainRun f r).1 = 0 ↔ ∃ t, f = Except.ok t ∧ r t = Except.ok ()) ∧
      ((mainRun f r).1 = 1 ↔ ¬∃ t, f = Except.ok t ∧ r t = Except.ok ()) ∧
      (mainRun f r).2.length = (if (mainRun f r).1 = 0 then 0 else 1) := by
  cases f with
  | error e => simp [mainRun]
  | ok t =>
    cases hr : r t with
    | error e => simp [mainRun, hr]
    | ok u => cases u; simp [mainRun, hr]

theorem data_mk (l : List Char) : (String.mk l).data = l := rfl

theorem natCharsGo_chars (fuel : Nat) :
    ∀ (n : Nat) (acc : List Char) (c : Char), c ∈ natCharsGo fuel n acc →
      c ∈ acc ∨ ∃ d, d < 10 ∧ c = digitChar d := by
  induction fuel with
  | zero => intro n acc c hc; exact Or.inl hc
  | succ f ih =>
    intro n acc c hc
    by_cases hn : n = 0
    · rw [natCharsGo, if_pos hn] at hc
      exact Or.inl hc
    · rw [natCharsGo, if_neg hn] at hc
      rcases ih (n / 10) _ c hc with h | h
      · rcases List.mem_cons.1 h with h | h
        · exact Or.inr ⟨n % 10, Nat.mod_lt _ (by omega), h⟩
        · exact Or.inl h
      · exact Or.inr h

theorem natChars_chars (n : Nat) :
    ∀ c ∈ natChars n, ∃ d, d < 10 ∧ c = digitChar d := by
  intro c hc
  unfold natChars at hc
  by_cases hn : n = 0
  · rw [if_pos hn, List.mem_singleton] at hc
    exact ⟨0, by omega, by rw [hc]; rfl⟩
  · rw [if_neg hn] at hc
    rcases natCharsGo_chars (n + 1) n [] c hc with h | h
    · simp at h
    · exact h

theorem digitChar_safe (d : Nat) (h : d < 10) :
    digitChar d ≠ '<' ∧ digitChar d ≠ '>' := by
  interval_cases d <;> exact ⟨by decide, by decide⟩

theorem natChars_safe (n : Nat) : ∀ c ∈ natChars n, c ≠ '<' ∧ c ≠ '>' := by
  intro c hc
  rcases natChars_chars n c hc with ⟨d, hd, rfl⟩
  exact digitChar_safe d hd

theorem pad3_safe (k : Nat) : ∀ c ∈ pad3 k, c ≠ '<' ∧ c ≠ '>' := by
  intro c hc
  unfold pad3 at hc
  by_cases h1 : k < 10
  · rw [if_pos h1] at hc
    rcases List.mem_cons.1 hc with rfl | hc
    · exact ⟨by decide, by decide⟩
    rcases List.mem_cons.1 hc with rfl | hc
    · exact ⟨by decide, by decide⟩
    exact natChars_safe k c hc
  · rw [if_neg h1] at hc
    by_cases h2 : k < 100
    · rw [if_pos h2] at hc
      rcases List.mem_cons.1 hc with rfl | hc
      · exact ⟨by decide, by decide⟩
      exact natChars_safe k c hc
    · rw [if_neg h2] at hc
      exact natChars_safe k c hc

theorem format3_safe (q : ℚ) : ∀ c ∈ (format3 q).data, c ≠ '<' ∧ c ≠ '>' := by
  intro c hc
  simp only [format3, data_mk] at hc
  rcases List.mem_append.1 hc with hc | hc
  · rcases List.mem_append.1 hc with hc | hc
    · by_cases hneg : roundHalfEven (q * 1000) < 0
      · rw [if_pos hneg, List.mem_singleton] at hc
        rw [hc]; exact ⟨by decide, by decide⟩
      · rw [if_neg hneg] at hc
        simp at hc
    · exact natChars_safe _ c hc
  · rcases List.mem_cons.1 hc with rfl | hc
    · exact ⟨by decide, by decide⟩
    · exact pad3_safe _ c hc

theorem dateStr_safe (d : Nat) : ∀ c ∈ (dateStr d).data, c ≠ '<' ∧ c ≠ '>' := by
  intro c hc
  simp only [dateStr, data_mk] at hc
  exact natChars_safe d c hc

theorem joinAll_data (l : List String) :
    (joinAll l).data = (l.map String.data).flatten := by
  induction l with
  | nil => rfl
  | cons s rest ih => simp [joinAll, data_append, ih]

theorem flatten_balanced (L : List (List Char))
    (h : ∀ x ∈ L, tagState false x = false) :
    tagState false L.flatten = false := by
  induction L with
  | nil => rfl
  | cons x xs ih =>
    rw [List.flatten_cons, tagState_append, h x (List.mem_cons_self x xs)]
    exact ih fun y hy => h y (List.mem_cons_of_mem x hy)

theorem policyItem_eq (t : RateTable) (n s : String)
    (h : policyItem t n = some s) :
    ∃ v, latestVal t n = some v ∧
      s = ("<li><strong>") ++ n ++ (":</strong> ") ++ format3 v ++ ("%</li>") := by
  by_cases hc : t.hasCol n = true
  · rcases hl : latestVal t n with _ | v
    · simp [policyItem, hc, hl] at h
    · simp [policyItem, hc, hl] at h
      exact ⟨v, rfl, h.symm⟩
  · simp [policyItem, hc] at h

theorem estrItem_eq (t : RateTable) (s : String) (h : estrItem t = some s) :
    ∃ v d, s = ("<li><strong>€STR:</strong> ") ++ format3 v ++ ("% (as of ")
        ++ dateStr d ++ (")</li>") := by
  rcases hl : t.lookup ("€STR") with _ | col
  · simp [estrItem, hl] at h
  · rcases hg : (dropNone t.dates col).getLast? with _ | p
    · simp [estrItem, hl, hg] at h
    · simp [estrItem, hl, hg] at h
      exact ⟨p.2, p.1, h.symm⟩

theorem eoniaItem_eq (t : RateTable) (s : String) (h : eoniaItem t = some s) :
    ∃ v d, s = ("<li><strong>EONIA:</strong> ") ++ format3 v ++ ("% (discontinued on ")
        ++ dateStr d ++ (")</li>") := by
  rcases hl : t.lookup ("EONIA") with _ | col
  · simp [eoniaItem, hl] at h
  · rcases hg : (dropNone t.dates col).getLast? with _ | p
    · simp [eoniaItem, hl, hg] at h
    · simp [eoniaItem, hl, hg] at h
      exact ⟨p.2, p.1, h.symm⟩

theorem line_balanced_policy (n : String) (v : ℚ)
    (hb : tagState false n.data = false) :
    tagState false ((("<li><strong>") ++ n ++ (":</strong> ")
      ++ format3 v ++ ("%</li>")).data) = false := by
  simp only [data_append, List.append_assoc]
  rw [tagState_append, show tagState false ("<li><strong>").data = false from by decide,
    tagState_append, hb,
    tagState_append, show tagState false ((":</strong> ")).data = false from by decide,
    tagState_append, tagState_of_noTag _ _ (format3_safe v)]
  decide

theorem line_balanced_estr (v : ℚ) (d : Nat) :
    tagState false ((("<li><strong>€STR:</strong> ") ++ format3 v ++ ("% (as of ")
      ++ dateStr d ++ (")</li>")).data) = false := by
  simp only [data_append, List.append_assoc]
  rw [tagState_append, show tagState false ("<li><strong>€STR:</strong> ").data = false from by decide,
    tagState_append, tagState_of_noTag _ _ (format3_safe v),
    tagState_append, show tagState false ("% (as of ").data = false from by decide,
    tagState_append, tagState_of_noTag _ _ (dateStr_safe d)]
  decide

theorem line_balanced_eonia (v : ℚ) (d : Nat) :
    tagState false ((("<li><strong>EONIA:</strong> ") ++ format3 v ++ ("% (discontinued on ")
      ++ dateStr d ++ (")</li>")).data) = false := by
  simp only [data_append, List.append_assoc]
  rw [tagState_append, show tagState false ("<li><strong>EONIA:</strong> ").data = false from by decide,
    tagState_append, tagState_of_noTag _ _ (format3_safe v),
    tagState_append, show tagState false ("% (discontinued on ").data = false from by decide,
    tagState_append, tagState_of_noTag _ _ (dateStr_safe d)]
  decide

theorem summaryItems_balanced (t : RateTable) :
    ∀ s ∈ summaryItems t, tagState false s.data = false := by
  intro s hs
  unfold summaryItems at hs
  rcases List.mem_append.1 hs with hs | hs
  · rcases List.mem_append.1 hs with hs | hs
    · rcases List.mem_filterMap.1 hs with ⟨n, hn, hitem⟩
      rcases policyItem_eq t n s hitem with ⟨v, _, rfl⟩
      have hb : tagState false n.data = false := by
        simp only [List.mem_cons, List.not_mem_nil, or_false] at hn
        rcases hn with rfl | rfl | rfl <;> decide
      exact line_balanced_policy n v hb
    · have h : estrItem t = some s := by simpa using hs
      rcases estrItem_eq t s h with ⟨v, d, rfl⟩
      exact line_balanced_estr v d
  · have h : eoniaItem t = some s := by simpa using hs
    rcases eoniaItem_eq t s h with ⟨v, d, rfl⟩
    exact line_balanced_eonia v d

theorem stripAux_five (a b c d e : List Char)
    (ha1 : stripAux false a = []) (ha2 : tagState false a = false)
    (hb1 : stripAux false b = b) (hb2 : tagState false b = false)
    (hc1 : stripAux false c = [':', ' ']) (hc2 : tagState false c = false)
    (hd1 : stripAux false d = d) (hd2 : tagState false d = false)
    (he1 : stripAux false e = ['%']) :
    stripAux false (a ++ (b ++ (c ++ (d ++ e)))) = b ++ (':' :: ' ' :: (d ++ ['%'])) := by
  rw [stripAux_append, ha1, ha2, stripAux_append, hb1, hb2, stripAux_append, hc1, hc2,
    stripAux_append, hd1, hd2, he1]
  simp

/-- The universal part of C5 as it holds on the code: a policy rate whose
value at the latest date is non-missing appears in the rendered summary
text as its three-decimal formatted value. -/
theorem summary_contains_core (now : String) (t : RateTable) (n : String) (v : ℚ)
    (hn : n ∈ (["MRO", "DFR", "MLF"] : List String))
    (hc : t.hasCol n = true) (hl : latestVal t n = some v) :
    strHasSub (stripTags (ratesInfo now t)) (n ++ (": ") ++ format3 v ++ ("%")) = true := by
  have hsafe : ∀ c ∈ n.data, c ≠ '<' ∧ c ≠ '>' := by
    simp only [List.mem_cons, List.not_mem_nil, or_false] at hn
    rcases hn with rfl | rfl | rfl <;> decide
  have hitem : policyItem t n =
      some (("<li><strong>") ++ n ++ (":</strong> ") ++ format3 v ++ ("%</li>")) := by
    simp [policyItem, hc, hl]
  have hmem : (("<li><strong>") ++ n ++ (":</strong> ") ++ format3 v ++ ("%</li>"))
      ∈ summaryItems t := by
    unfold summaryItems
    refine List.mem_append.2 (Or.inl (List.mem_append.2 (Or.inl ?_)))
    exact List.mem_filterMap.2 ⟨n, hn, hitem⟩
  obtain ⟨L1, L2, hsplit⟩ := List.append_of_mem hmem
  have hbalL1 : tagState false ((L1.map String.data).flatten) = false := by
    apply flatten_balanced
    intro x hx
    rcases List.mem_map.1 hx with ⟨s, hs, rfl⟩
    exact summaryItems_balanced t s (by rw [hsplit]; exact List.mem_append.2 (Or.inl hs))
  have hP : tagState false (infoHeader.data ++ (L1.map String.data).flatten) = false := by
    rw [tagState_append, show tagState false infoHeader.data = false from by decide]
    exact hbalL1
  have hline : (("<li><strong>") ++ n ++ (":</strong> ") ++ format3 v ++ ("%</li>")).data =
      ("<li><strong>").data ++ (n.data ++ ((":</strong> ").data
        ++ ((format3 v).data ++ ("%</li>").data))) := by
    simp [data_append, List.append_assoc]
  have hstrip : stripAux false
      ((("<li><strong>") ++ n ++ (":</strong> ") ++ format3 v ++ ("%</li>")).data) =
      (n ++ (": ") ++ format3 v ++ ("%")).data := by
    rw [hline,
      stripAux_five _ _ _ _ _ (by decide) (by decide)
        (stripAux_false_of_noTag _ hsafe) (tagState_of_noTag _ _ hsafe)
        (by decide) (by decide)
        (stripAux_false_of_noTag _ (format3_safe v)) (tagState_of_noTag _ _ (format3_safe v))
        (by decide)]
    simp [data_append, List.append_assoc]
  have hdata : (ratesInfo now t).data =
      (infoHeader.data ++ (L1.map String.data).flatten) ++
        ((("<li><strong>") ++ n ++ (":</strong> ") ++ format3 v ++ ("%</li>")).data ++
          ((L2.map String.data).flatten ++ (("</ul>").data
            ++ (("<p><em>Last updated: ").data
              ++ (now.data ++ (("</em></p>").data ++ ("</div>").data)))))) := by
    simp only [ratesInfo, data_append, joinAll_data, hsplit, List.map_append, List.map_cons,
      List.flatten_append, List.flatten_cons, List.append_assoc]
  show hasSubList ((n ++ (": ") ++ format3 v ++ ("%")).data) (stripAux false (ratesInfo now t).data) = true
  rw [hdata, stripAux_append (infoHeader.data ++ (List.map String.data L1).flatten), hP,
    stripAux_append ((("<li><strong>") ++ n ++ (":</strong> ") ++ format3 v ++ ("%</li>")).data),
    hstrip]
  exact hasSubList_append_left _ _ (hasSubList_self_append _ _) _

/-- C5 counterexample: the MRO column is present and its latest
non-missing value is 4.50, but because its value at the latest date is
missing, the rendered summary text does not contain "MRO: 4.500%" (the
code reads only the last row, not the last non-missing value). -/
theorem summary_latest_missing_counterexample :
    tableC5.hasCol ("MRO") = true ∧
      tableC5.lookup ("MRO") = some [some ((9:ℚ)/2), none] ∧
      (dropNone tableC5.dates [some ((9:ℚ)/2), none]).getLast? = some (0, (9:ℚ)/2) ∧
      strHasSub (stripTags (ratesInfo ("ts") tableC5)) ("MRO: 4.500%") = false := by
  refine ⟨rfl, rfl, rfl, ?_⟩
  decide

/-- C5 (amended): for every policy rate present in the table whose value
at the latest date is non-missing, the rendered summary text contains
that value formatted to three decimals with a trailing "%" after the
rate name; for latest-date values MRO=4.50, DFR=4.75, MLF=5.00 it
contains the literal substrings "MRO: 4.500%", "DFR: 4.750%" and
"MLF: 5.000%".  (A rate whose value at the latest date is missing is
omitted, even if an older non-missing value exists.) -/
theorem summary_policy_latest (now : String) (t : RateTable) (n : String) (v : ℚ)
    (hn : n ∈ (["MRO", "DFR", "MLF"] : List String))
    (hc : t.hasCol n = true) (hl : latestVal t n = some v) :
    strHasSub (stripTags (ratesInfo now t)) (n ++ (": ") ++ format3 v ++ ("%")) = true ∧
      strHasSub (stripTags (ratesInfo ("ts") tableC5w)) ("MRO: 4.500%") = true ∧
      strHasSub (stripTags (ratesInfo ("ts") tableC5w)) ("DFR: 4.750%") = true ∧
      strHasSub (stripTags (ratesInfo ("ts") tableC5w)) ("MLF: 5.000%") = true := by
  refine ⟨summary_contains_core now t n v hn hc hl, ?_, ?_, ?_⟩
  · have hf : format3 ((9:ℚ)/2) = "4.500" := by
      have h1 : roundHalfEven ((9:ℚ)/2 * 1000) = 4500 := by norm_num [roundHalfEven]
      simp only [format3]; rw [h1]; rfl
    have h := summary_contains_core ("ts") tableC5w ("MRO") ((9:ℚ)/2) (by decide) rfl rfl
    rw [hf] at h
    have e : ("MRO") ++ (": ") ++ ("4.500") ++ ("%") = "MRO: 4.500%" := rfl
    rw [e] at h
    exact h
  · have hf : format3 ((19:ℚ)/4) = "4.750" := by
      have h1 : roundHalfEven ((19:ℚ)/4 * 1000) = 4750 := by norm_num [roundHalfEven]
      simp only [format3]; rw [h1]; rfl
    have h := summary_contains_core ("ts") tableC5w ("DFR") ((19:ℚ)/4) (by decide) rfl rfl
    rw [hf] at h
    have e : ("DFR") ++ (": ") ++ ("4.750") ++ ("%") = "DFR: 4.750%" := rfl
    rw [e] at h
    exact h
  · have hf : format3 ((5:ℚ)) = "5.000" := by
      have h1 : roundHalfEven ((5:ℚ) * 1000) = 5000 := by norm_num [roundHalfEven]
      simp only [format3]; rw [h1]; rfl
    have h := summary_contains_core ("ts") tableC5w ("MLF") ((5:ℚ)) (by decide) rfl rfl
    rw [hf] at h
    have e : ("MLF") ++ (": ") ++ ("5.000") ++ ("%") = "MLF: 5.000%" := rfl
    rw [e] at h
    exact h

/-- C5 witness: the amended statement instantiated at the table with
latest-date values 4.50/4.75/5.00. -/
theorem summary_policy_latest_witness :
    strHasSub (stripTags (ratesInfo ("ts") tableC5w)) ("MRO: 4.500%") = true ∧
      strHasSub (stripTags (ratesInfo ("ts") tableC5w)) ("DFR: 4.750%") = true ∧
      strHasSub (stripTags (ratesInfo ("ts") tableC5w)) ("MLF: 5.000%") = true :=
  (summary_policy_latest ("ts") tableC5w ("MRO") ((9:ℚ)/2) (by decide) rfl rfl).2

/-- C6 counterexample: on the table with no columns at all (which also
has no rows, as when every fetch fails) the render stage raises at the
latest-row access instead of succeeding. -/
theorem createPlot_empty_counterexample :
    createPlot ("ts") emptyTable =
        Except.error ("single positional indexer is out-of-bounds") ∧
      emptyTable.cols = [] := ⟨rfl, rfl⟩

/-- C6 (amended): provided the table has at least one row, rendering
succeeds whatever series are absent, and every absent series is omitted
from both the chart traces and the summary lines; a table with no rows
at all (as arises when it has no columns) instead raises at the
latest-row access. -/
theorem createPlot_missing_series_ok (now : String) (t : RateTable)
    (h : t.dates ≠ []) :
    (∃ out, createPlot now t = Except.ok out) ∧
      (∀ n, t.hasCol n = false → n ∉ chartTraces t) ∧
      (t.hasCol ("MRO") = false → policyItem t ("MRO") = none) ∧
      (t.hasCol ("DFR") = false → policyItem t ("DFR") = none) ∧
      (t.hasCol ("MLF") = false → policyItem t ("MLF") = none) ∧
      (t.hasCol ("€STR") = false → estrItem t = none) ∧
      (t.hasCol ("EONIA") = false → eoniaItem t = none) := by
  refine ⟨?_, ?_, fun hm => by simp [policyItem, hm], fun hm => by simp [policyItem, hm],
    fun hm => by simp [policyItem, hm], ?_, ?_⟩
  · cases hd : t.dates with
    | nil => exact absurd hd h
    | cons d ds =>
      refine ⟨(chartTraces t, ratesInfo now t), ?_⟩
      simp [createPlot, hd]
  · intro n hn hcontra
    rcases List.mem_append.1 hcontra with hm | hm <;>
      exact absurd (List.mem_filter.1 hm).2 (by simp [hn])
  · intro hm
    simp [estrItem, (hasCol_eq_false_iff t _).1 hm]
  · intro hm
    simp [eoniaItem, (hasCol_eq_false_iff t _).1 hm]

/-- C6 witness: a one-row table with only a DFR column renders, and the
four absent series are omitted everywhere. -/
theorem createPlot_missing_series_ok_witness :
    (∃ out, createPlot ("ts") tableC6 = Except.ok out) ∧
      (∀ n, tableC6.hasCol n = false → n ∉ chartTraces tableC6) ∧
      (tableC6.hasCol ("MRO") = false → policyItem tableC6 ("MRO") = none) ∧
      (tableC6.hasCol ("DFR") = false → policyItem tableC6 ("DFR") = none) ∧
      (tableC6.hasCol ("MLF") = false → policyItem tableC6 ("MLF") = none) ∧
      (tableC6.hasCol ("€STR") = false → estrItem tableC6 = none) ∧
      (tableC6.hasCol ("EONIA") = false → eoniaItem tableC6 = none) :=
  createPlot_missing_series_ok ("ts") tableC6 (by decide)

theorem self_mem_inits {α : Type} (l : List α) : l ∈ l.inits := by
  induction l with
  | nil => simp
  | cons a t ih => simp [List.inits]

/-- C9: for an output path with a named parent directory that does not yet
exist, the write tail creates the parent and every missing ancestor
before writing, and the write succeeds. -/
theorem saveHtml_creates (fs : FS) (p : Path)
    (_hne : p.dir ∉ fs) (h : p.dir ≠ []) :
    saveHtml fs p = Except.ok (makedirs fs p.dir) ∧
      p.dir ∈ makedirs fs p.dir ∧
      ∀ a ∈ p.dir.inits, a ≠ [] → a ∈ makedirs fs p.dir := by
  have hmem : p.dir ∈ makedirs fs p.dir := by
    unfold makedirs
    exact List.mem_append_left _ (List.mem_filter.2 ⟨self_mem_inits _, by simpa using h⟩)
  refine ⟨?_, hmem, ?_⟩
  · unfold saveHtml writeFile
    simp [h, hmem]
  · intro a ha hane
    unfold makedirs
    exact List.mem_append_left _ (List.mem_filter.2 ⟨ha, by simpa using hane⟩)

/-! ### Round-trip lemmas for merge idempotence (C7) -/

theorem dropNone_fst_mem (ds : List ℕ) (col : List (Option ℚ)) (p : ℕ × ℚ)
    (hp : p ∈ dropNone ds col) : p.1 ∈ ds := by
  rcases List.mem_filterMap.1 hp with ⟨q, hq, hmapq⟩
  rcases q with ⟨qd, qo⟩
  cases qo with
  | none => simp at hmapq
  | some v =>
    have hqp : (qd, v) = p := by simpa using hmapq
    rw [← hqp]
    exact (List.of_mem_zip hq).1

theorem lookupS_dropNone :
    ∀ (ds : List ℕ) (col : List (Option ℚ)), ds.Nodup → col.length = ds.length →
      (ds.map fun d => lookupS (dropNone ds col) d) = col := by
  intro ds
  induction ds with
  | nil =>
    intro col _ hlen
    rw [List.length_nil, List.length_eq_zero] at hlen
    rw [hlen]
    rfl
  | cons d ds' ih =>
    intro col hnd hlen
    cases col with
    | nil => simp at hlen
    | cons o col' =>
      rw [List.nodup_cons] at hnd
      have hlen' : col'.length = ds'.length := by simpa using hlen
      cases o with
      | some v =>
        have hd : dropNone (d :: ds') (some v :: col') = (d, v) :: dropNone ds' col' := by
          simp [dropNone]
        rw [List.map_cons, hd]
        have htail : ∀ d' ∈ ds',
            lookupS ((d, v) :: dropNone ds' col') d' = lookupS (dropNone ds' col') d' := by
          intro d' hd'
          have hne : ¬(d = d') := fun hEq => hnd.1 (hEq ▸ hd')
          unfold lookupS
          rw [List.find?_cons_of_neg _ (by simpa using hne)]
        rw [List.map_congr_left htail]
        congr 1
        · unfold lookupS
          rw [List.find?_cons_of_pos _ (by simp)]
          rfl
        · exact ih col' hnd.2 hlen'
      | none =>
        have hd : dropNone (d :: ds') (none :: col') = dropNone ds' col' := by
          simp [dropNone]
        rw [List.map_cons, hd]
        congr 1
        · have hfind : (dropNone ds' col').find? (fun p => p.1 = d) = none := by
            rw [List.find?_eq_none]
            intro p hp
            simp only [decide_eq_true_eq]
            intro hEq
            exact hnd.1 (hEq ▸ dropNone_fst_mem ds' col' p hp)
          unfold lookupS
          rw [hfind]
          rfl
        · exact ih col' hnd.2 hlen'

theorem zipWith_map_same {α β γ : Type} (g : β → β → γ) (F V : α → β) :
    ∀ l : List α, List.zipWith g (l.map F) (l.map V) = l.map fun x => g (F x) (V x) := by
  intro l
  induction l with
  | nil => rfl
  | cons a t ih => simp [ih]

theorem dropNone_map_eq (f : ℕ → Option ℚ) :
    ∀ ds : List ℕ,
      dropNone ds (ds.map f) = ds.filterMap fun x => (f x).map fun v => (x, v) := by
  intro ds
  induction ds with
  | nil => rfl
  | cons d t ih =>
    simp only [dropNone, List.map_cons, List.zip_cons_cons, List.filterMap_cons] at ih ⊢
    cases hfd : f d with
    | none => simpa [hfd] using ih
    | some v => simpa [hfd] using ih

theorem find?_name_nodup {β : Type} (m : List (String × β)) (nm : String) (s : β)
    (hnd : (m.map Prod.fst).Nodup) (hm : (nm, s) ∈ m) :
    (m.find? fun c => c.1 = nm) = some (nm, s) := by
  induction m with
  | nil => simp at hm
  | cons a t ih =>
    rw [List.map_cons, List.nodup_cons] at hnd
    rcases List.mem_cons.1 hm with rfl | hm'
    · rw [List.find?_cons_of_pos _ (by simp)]
    · have hne : ¬(a.1 = nm) := by
        intro hEq
        exact hnd.1 (hEq ▸ List.mem_map.2 ⟨(nm, s), hm', rfl⟩)
      rw [List.find?_cons_of_neg _ (by simpa using hne)]
      exact ih hnd.2 hm'

theorem find?_map_keyed {β γ : Type} (G : String × β → γ) (nm : String) :
    ∀ q : List (String × β),
      ((q.map fun c => (c.1, G c)).find? fun c => c.1 = nm) =
        (q.find? fun c => c.1 = nm).map fun c => (c.1, G c) := by
  intro q
  induction q with
  | nil => rfl
  | cons a t ih =>
    by_cases ha : a.1 = nm
    · rw [List.map_cons, List.find?_cons_of_pos _ (by simpa using ha),
        List.find?_cons_of_pos _ (by simpa using ha)]
      rfl
    · rw [List.map_cons, List.find?_cons_of_neg _ (by simpa using ha),
        List.find?_cons_of_neg _ (by simpa using ha)]
      exact ih

theorem lookup_mkTable (m : List (String × Series)) (nm : String) :
    (mkTable m).lookup nm =
      (m.find? fun c => c.1 = nm).map fun c => (dateUnion m).map fun d => lookupS c.2 d := by
  unfold mkTable RateTable.lookup
  rw [show (List.map (fun c => (c.1, (dateUnion m).map fun d => lookupS c.2 d)) m) =
      (m.map fun c => (c.1, (fun x : String × Series => (dateUnion m).map fun d => lookupS x.2 d) c)) from rfl,
    find?_map_keyed, Option.map_map]
  rfl

theorem mem_dateUnion (m : List (String × Series)) (d : ℕ) :
    d ∈ dateUnion m ↔ d ∈ allDates m := by
  simp [dateUnion, List.mem_dedup]

theorem dateUnion_sorted (m : List (String × Series)) :
    List.Sorted (· ≤ ·) (dateUnion m) :=
  List.sorted_insertionSort _ _

theorem dateUnion_nodup (m : List (String × Series)) : (dateUnion m).Nodup :=
  ((List.perm_insertionSort _ _).nodup_iff).2 (List.nodup_dedup _)

theorem lookupS_some_of_mem (s : Series) (d : ℕ) (h : d ∈ s.map Prod.fst) :
    ∃ v, lookupS s d = some v := by
  rcases List.mem_map.1 h with ⟨p, hp, rfl⟩
  have hsome : (s.find? fun q => q.1 = p.1).isSome :=
    List.find?_isSome.2 ⟨p, hp, by simp⟩
  rcases ho : s.find? fun q => q.1 = p.1 with _ | q
  · rw [ho] at hsome; simp at hsome
  · exact ⟨q.2, by unfold lookupS; rw [ho]; rfl⟩

theorem meanRow_pair_left (a : ℚ) (b : Option ℚ) :
    ∃ w, meanRow [some a, b] = some w := by
  cases b with
  | none => exact ⟨a, by simp [meanRow]⟩
  | some b2 => exact ⟨(a + b2) / 2, by simp [meanRow]⟩

theorem meanRow_pair_right (b : ℚ) (a : Option ℚ) :
    ∃ w, meanRow [a, some b] = some w := by
  cases a with
  | none => exact ⟨b, by simp [meanRow]⟩
  | some a2 => exact ⟨(a2 + b) / 2, by simp [meanRow]⟩

theorem cols_length_mkTable (m : List (String × Series)) :
    ∀ c ∈ (mkTable m).cols, c.2.length = (dateUnion m).length := by
  intro c hc
  rcases List.mem_map.1 hc with ⟨x, _, rfl⟩
  simp

theorem dates_merge (m : List (String × Series)) : (merge m).dates = dateUnion m := by
  unfold merge
  rw [dates_combineMRO]
  rfl

theorem lookup_len_dateUnion (m : List (String × Series)) (nm : String)
    (f : List (Option ℚ)) (hF : (mkTable m).lookup nm = some f) :
    f.length = (dateUnion m).length := by
  rw [lookup_mkTable] at hF
  rcases Option.map_eq_some'.1 hF with ⟨c0, _, hGc0⟩
  rw [← hGc0]
  simp

theorem cols_length_merge (m : List (String × Series)) :
    ∀ c ∈ (merge m).cols, c.2.length = (dateUnion m).length := by
  intro c hc
  unfold merge at hc
  rcases hF : (mkTable m).lookup mroFixedName with _ | f
  · rw [combineMRO_eq_self _ (Or.inl hF)] at hc
    exact cols_length_mkTable m c hc
  rcases hV : (mkTable m).lookup mroVariableName with _ | v
  · rw [combineMRO_eq_self _ (Or.inr hV)] at hc
    exact cols_length_mkTable m c hc
  have hflen : f.length = (dateUnion m).length := lookup_len_dateUnion m _ f hF
  have hvlen : v.length = (dateUnion m).length := lookup_len_dateUnion m _ v hV
  simp only [combineMRO, hF, hV] at hc
  have hc' := (List.mem_filter.1 hc).1
  unfold setCol at hc'
  by_cases hany : (mkTable m).cols.any fun x => x.1 = ("MRO")
  · rw [if_pos hany] at hc'
    rcases List.mem_map.1 hc' with ⟨x, hx, hfx⟩
    by_cases hxm : x.1 = ("MRO")
    · rw [if_pos hxm] at hfx
      rw [← hfx]
      simp [hflen, hvlen]
    · rw [if_neg hxm] at hfx
      rw [← hfx]
      exact cols_length_mkTable m x hx
  · rw [if_neg hany] at hc'
    rcases List.mem_append.1 hc' with hc' | hc'
    · exact cols_length_mkTable m c hc'
    · rw [List.mem_singleton] at hc'
      rw [hc']
      simp [hflen, hvlen]

theorem mkTable_no_mro (m : List (String × Series)) (hmro : ("MRO") ∉ m.map Prod.fst) :
    ¬((mkTable m).cols.any fun x => x.1 = ("MRO")) = true := by
  intro hany
  rcases List.any_eq_true.1 hany with ⟨x, hx, hxm⟩
  rcases List.mem_map.1 hx with ⟨y, hy, rfl⟩
  simp only [decide_eq_true_eq] at hxm
  exact hmro (hxm ▸ List.mem_map.2 ⟨y, hy, rfl⟩)

/-- Every date of the merged table carries at least one non-missing value
in some column (when the input is a valid fetched dict). -/
theorem merge_covers (m : List (String × Series))
    (hnd : (m.map Prod.fst).Nodup) (hmro : ("MRO") ∉ m.map Prod.fst) :
    ∀ d ∈ dateUnion m, ∃ c ∈ (merge m).cols, ∃ w, (d, w) ∈ dropNone (dateUnion m) c.2 := by
  intro d hd
  have hall : d ∈ allDates m := (mem_dateUnion m d).1 hd
  unfold allDates at hall
  rcases List.mem_flatten.1 hall with ⟨dl, hdl, hdmem⟩
  rcases List.mem_map.1 hdl with ⟨⟨nm, s⟩, hms, rfl⟩
  rcases lookupS_some_of_mem s d hdmem with ⟨v0, hv0⟩
  have hnomro := mkTable_no_mro m hmro
  rcases hF : (mkTable m).lookup mroFixedName with _ | f
  · have hEqT : merge m = mkTable m := combineMRO_eq_self _ (Or.inl hF)
    refine ⟨(nm, (dateUnion m).map fun dd => lookupS s dd), ?_, v0, ?_⟩
    · rw [hEqT]
      exact List.mem_map.2 ⟨(nm, s), hms, rfl⟩
    · rw [dropNone_map_eq]
      exact List.mem_filterMap.2 ⟨d, hd, by rw [hv0]; rfl⟩
  rcases hV : (mkTable m).lookup mroVariableName with _ | v
  · have hEqT : merge m = mkTable m := combineMRO_eq_self _ (Or.inr hV)
    refine ⟨(nm, (dateUnion m).map fun dd => lookupS s dd), ?_, v0, ?_⟩
    · rw [hEqT]
      exact List.mem_map.2 ⟨(nm, s), hms, rfl⟩
    · rw [dropNone_map_eq]
      exact List.mem_filterMap.2 ⟨d, hd, by rw [hv0]; rfl⟩
  have hvcol : ∃ V : ℕ → Option ℚ, v = (dateUnion m).map V := by
    rw [lookup_mkTable] at hV
    rcases Option.map_eq_some'.1 hV with ⟨c0, _, hGc0⟩
    exact ⟨fun dd => lookupS c0.2 dd, hGc0.symm⟩
  have hfcol : ∃ F : ℕ → Option ℚ, f = (dateUnion m).map F := by
    rw [lookup_mkTable] at hF
    rcases Option.map_eq_some'.1 hF with ⟨c0, _, hGc0⟩
    exact ⟨fun dd => lookupS c0.2 dd, hGc0.symm⟩
  have hmromem : ("MRO", List.zipWith (fun a b => meanRow [a, b]) f v) ∈ (merge m).cols := by
    simp only [merge, combineMRO, hF, hV]
    apply List.mem_filter.2
    refine ⟨?_, by simp [mroFixedName, mroVariableName]⟩
    unfold setCol
    rw [if_neg hnomro]
    exact List.mem_append.2 (Or.inr (by simp))
  by_cases hnmf : nm = mroFixedName ∨ nm = mroVariableName
  · rcases hnmf with rfl | rfl
    · have hfind : (m.find? fun c => c.1 = mroFixedName) = some (mroFixedName, s) :=
        find?_name_nodup m mroFixedName s hnd hms
      have hf_eq : f = (dateUnion m).map fun dd => lookupS s dd := by
        rw [lookup_mkTable, hfind] at hF
        simpa using hF.symm
      rcases hvcol with ⟨V, rfl⟩
      refine ⟨("MRO", List.zipWith (fun a b => meanRow [a, b]) f ((dateUnion m).map V)),
        hmromem, ?_⟩
      rw [hf_eq, zipWith_map_same, dropNone_map_eq]
      rcases meanRow_pair_left v0 (V d) with ⟨w, hw⟩
      exact ⟨w, List.mem_filterMap.2 ⟨d, hd, by rw [hv0, hw]; rfl⟩⟩
    · have hfind : (m.find? fun c => c.1 = mroVariableName) = some (mroVariableName, s) :=
        find?_name_nodup m mroVariableName s hnd hms
      have hv_eq : v = (dateUnion m).map fun dd => lookupS s dd := by
        rw [lookup_mkTable, hfind] at hV
        simpa using hV.symm
      rcases hfcol with ⟨F, rfl⟩
      refine ⟨("MRO", List.zipWith (fun a b => meanRow [a, b]) ((dateUnion m).map F) v),
        hmromem, ?_⟩
      rw [hv_eq, zipWith_map_same, dropNone_map_eq]
      rcases meanRow_pair_right v0 (F d) with ⟨w, hw⟩
      exact ⟨w, List.mem_filterMap.2 ⟨d, hd, by rw [hv0, hw]; rfl⟩⟩
  · push_neg at hnmf
    refine ⟨(nm, (dateUnion m).map fun dd => lookupS s dd), ?_, v0, ?_⟩
    · simp only [merge, combineMRO, hF, hV]
      apply List.mem_filter.2
      refine ⟨?_, by simp [hnmf.1, hnmf.2]⟩
      unfold setCol
      rw [if_neg hnomro]
      exact List.mem_append.2 (Or.inl (List.mem_map.2 ⟨(nm, s), hms, rfl⟩))
    · rw [dropNone_map_eq]
      exact List.mem_filterMap.2 ⟨d, hd, by rw [hv0]; rfl⟩

theorem dateUnion_tableToSeries (m : List (String × Series))
    (hnd : (m.map Prod.fst).Nodup) (hmro : ("MRO") ∉ m.map Prod.fst) :
    dateUnion (tableToSeries (merge m)) = dateUnion m := by
  have hds : (merge m).dates = dateUnion m := dates_merge m
  have hmemiff : ∀ d, d ∈ allDates (tableToSeries (merge m)) ↔ d ∈ dateUnion m := by
    intro d
    constructor
    · intro hdm
      unfold allDates tableToSeries at hdm
      rcases List.mem_flatten.1 hdm with ⟨dl, hdl, hdmem⟩
      rcases List.mem_map.1 hdl with ⟨c2, hc2, rfl⟩
      rcases List.mem_map.1 hdmem with ⟨p, hp, rfl⟩
      rcases List.mem_map.1 hc2 with ⟨c, _, rfl⟩
      have hpm := dropNone_fst_mem _ _ p hp
      rw [hds] at hpm
      exact hpm
    · intro hdm
      rcases merge_covers m hnd hmro d hdm with ⟨c, hc, w, hw⟩
      unfold allDates tableToSeries
      apply List.mem_flatten.2
      refine ⟨(dropNone (merge m).dates c.2).map Prod.fst, ?_, ?_⟩
      · apply List.mem_map.2
        exact ⟨(c.1, dropNone (merge m).dates c.2), List.mem_map.2 ⟨c, hc, rfl⟩, rfl⟩
      · apply List.mem_map.2
        refine ⟨(d, w), ?_, rfl⟩
        rw [hds]
        exact hw
  apply List.eq_of_perm_of_sorted ?_ (dateUnion_sorted _) (dateUnion_sorted m)
  apply (List.perm_ext_iff_of_nodup (dateUnion_nodup _) (dateUnion_nodup m)).2
  intro a
  rw [mem_dateUnion, mem_dateUnion]
  exact (hmemiff a).trans (mem_dateUnion m a)

theorem mkTable_tableToSeries (m : List (String × Series))
    (hnd : (m.map Prod.fst).Nodup) (hmro : ("MRO") ∉ m.map Prod.fst) :
    mkTable (tableToSeries (merge m)) = merge m := by
  have hds : (merge m).dates = dateUnion m := dates_merge m
  have hdu := dateUnion_tableToSeries m hnd hmro
  apply RateTable.ext
  · show dateUnion (tableToSeries (merge m)) = (merge m).dates
    rw [hdu, hds]
  · show (tableToSeries (merge m)).map
        (fun c => (c.1, (dateUnion (tableToSeries (merge m))).map fun d => lookupS c.2 d)) =
      (merge m).cols
    rw [hdu]
    unfold tableToSeries
    rw [List.map_map]
    have hid : ∀ c ∈ (merge m).cols,
        ((fun c : String × List (Option ℚ) =>
          (c.1, (dateUnion m).map fun d => lookupS (dropNone (merge m).dates c.2) d)) c) = c := by
      intro c hc
      rcases c with ⟨n1, col⟩
      have hlen : col.length = (dateUnion m).length := cols_length_merge m _ hc
      rw [hds]
      exact Prod.ext rfl (lookupS_dropNone (dateUnion m) col (dateUnion_nodup m) hlen)
    calc ((merge m).cols.map fun c =>
          (c.1, (dateUnion m).map fun d => lookupS (dropNone (merge m).dates c.2) d))
        = (merge m).cols.map id := List.map_congr_left hid
      _ = (merge m).cols := List.map_id _

theorem merge_no_both (m : List (String × Series)) :
    (merge m).lookup mroFixedName = none ∨ (merge m).lookup mroVariableName = none := by
  rcases hF : (mkTable m).lookup mroFixedName with _ | f
  · left
    unfold merge
    rw [combineMRO_eq_self _ (Or.inl hF)]
    exact hF
  rcases hV : (mkTable m).lookup mroVariableName with _ | v
  · right
    unfold merge
    rw [combineMRO_eq_self _ (Or.inr hV)]
    exact hV
  · left
    exact (hasCol_eq_false_iff _ _).1 (hasCol_combineMRO_dropped (mkTable m) f v hF hV).1

/-- C7: on any valid fetched dict (unique names, none of them the derived
name "MRO"), re-applying the merge stage to its own output yields the
identical table: same dates, same columns, same values. -/
theorem merge_idem (m : List (String × Series))
    (hnd : (m.map Prod.fst).Nodup) (hmro : ("MRO") ∉ m.map Prod.fst) :
    merge (tableToSeries (merge m)) = merge m := by
  have h1 : mkTable (tableToSeries (merge m)) = merge m := mkTable_tableToSeries m hnd hmro
  show combineMRO (mkTable (tableToSeries (merge m))) = merge m
  rw [h1]
  exact combineMRO_eq_self _ (merge_no_both m)

/-- C7 witness: idempotence on a concrete fetched dict with both MRO
sub-series (on different dates) and a DFR series. -/
theorem merge_idem_witness :
    merge (tableToSeries (merge seriesC7)) = merge seriesC7 :=
  merge_idem seriesC7 (by decide) (by decide)

/-- C9 witness: writing to `static/html/ecb_rates.html` on an empty
filesystem creates `static` and `static/html` and succeeds. -/
theorem saveHtml_creates_witness :
    saveHtml [] { dir := ["static", "html"], file := "ecb_rates.html" } =
        Except.ok (makedirs [] ["static", "html"]) ∧
      ["static", "html"] ∈ makedirs [] ["static", "html"] ∧
      ∀ a ∈ (["static", "html"] : List String).inits, a ≠ [] →
        a ∈ makedirs [] ["static", "html"] :=
  saveHtml_creates [] { dir := ["static", "html"], file := "ecb_rates.html" }
    (by decide) (by decide)

end EcbViz
